import Mathlib

set_option maxHeartbeats 1000000

/-!
Verification of the mini-me interactive terminal text editor.

The development shallowly embeds the editor core:
* the rope-backed text buffer is a flat `List Char`; ropey's line-indexing
  primitives (`len_lines`, `line_to_char`, `line`) are defined on it with the
  library's documented semantics, returning `Option` where ropey would fail
  on an out-of-bounds index;
* the `Editor` operations of `src/editor/mod.rs` become functions
  `Editor → Option Editor`, `none` marking an out-of-bounds rope access;
* the viewport planner `calculate_draw_range` of `src/renderer/full.rs` and
  the diff classifier `find_diff` / `redraw` dispatch of
  `src/renderer/lazy.rs` become pure functions.
-/

namespace MiniMe

/-- A character buffer; the rope of `src/editor/mod.rs` viewed as its
character sequence. -/
abbrev Buf := List Char

/-- Cursor position, `selection.rs`: line and column. -/
structure Cursor where
  ln : Nat
  col : Nat
deriving DecidableEq, Repr

/-- Selection, `selection.rs`: a focus and an optional anchor. -/
structure Selection where
  focus : Cursor
  anchor : Option Cursor
deriving DecidableEq, Repr

/-- The editor state of `src/editor/mod.rs` (the `Rope` buffer plus the
selection; `altscreen` is carried along untouched). -/
structure Editor where
  buf : Buf
  selection : Selection
  altscreen : Bool
deriving DecidableEq, Repr

/-- Number of newline characters in the buffer. -/
def countNl (s : Buf) : Nat := s.count '\n'

/-- ropey `Rope::len_lines`: one more than the number of newlines. -/
def len_lines (s : Buf) : Nat := countNl s + 1

/-- ropey `Rope::len_chars`. -/
def len_chars (s : Buf) : Nat := s.length

/-- Character offset of the start of line `ln` (the position just after the
`ln`-th newline), saturating at the buffer length: ropey `line_to_char`. -/
def line_start : Buf → Nat → Nat
  | _, 0 => 0
  | [], _ + 1 => 0
  | c :: rest, n + 1 => 1 + line_start rest (if c = '\n' then n else n + 1)

/-- ropey `Rope::line_to_char`, which fails when `ln > len_lines`. -/
def line_to_char? (s : Buf) (ln : Nat) : Option Nat :=
  if ln ≤ len_lines s then some (line_start s ln) else none

/-- The longest prefix of `l` up to and including the first newline. -/
def takeLine : Buf → Buf
  | [] => []
  | c :: rest => if c = '\n' then ['\n'] else c :: takeLine rest

/-- ropey `Rope::line`: the `ln`-th line including its terminator; fails when
`ln ≥ len_lines`. -/
def line? (s : Buf) (ln : Nat) : Option Buf :=
  if ln < len_lines s then some (takeLine (s.drop (line_start s ln))) else none

/-- `util.rs` `trimmed` / `RopeExt::trimmed`: drop a single trailing
newline if present. -/
def trimmed (s : Buf) : Buf :=
  if s.length = 0 then s
  else if s.getLast? = some '\n' then s.dropLast else s

/-- ropey `Rope::remove(a..b)`: fails unless `a ≤ b ≤ len_chars`. -/
def removeRange? (s : Buf) (a b : Nat) : Option Buf :=
  if a ≤ b ∧ b ≤ s.length then some (s.take a ++ s.drop b) else none

/-- ropey `Rope::insert` / `insert_char`: fails unless `z ≤ len_chars`. -/
def insertAt? (s : Buf) (z : Nat) (t : Buf) : Option Buf :=
  if z ≤ s.length then some (s.take z ++ t ++ s.drop z) else none

/-- Split a buffer at every newline; `n` newlines yield `n + 1` segments
(the segments do not contain the newlines). -/
def splitNl : Buf → List Buf
  | [] => [[]]
  | c :: rest =>
    match splitNl rest with
    | [] => [[c]]
    | l :: ls => if c = '\n' then [] :: l :: ls else (c :: l) :: ls

/-- Drop a single trailing carriage return (the `\x5cr` of a `\x5cr\x5cn`
line ending). -/
def stripCr (l : Buf) : Buf :=
  if l.getLast? = some '\r' then l.dropLast else l

/-- Rust `str::lines`: split at `\x5cn` or `\x5cr\x5cn`; a final line
ending is optional (a trailing empty segment is not produced). -/
def rustLines (s : Buf) : List Buf :=
  let segs := splitNl s
  (segs.dropLast.map stripCr) ++
    (match segs.getLast? with
      | some [] => []
      | some l => [l]
      | none => [])

/-- The text after the last newline of `s` (all of `s` when it has no
newline). -/
def afterLastNl : Buf → Buf
  | [] => []
  | c :: rest =>
    if countNl rest = 0 then (if c = '\n' then rest else c :: rest)
    else afterLastNl rest

/-- A fresh editor over an initial text, cursor at the origin
(`Editor::default` followed by `set_contents`). -/
def mkEditor (s : String) : Editor := ⟨s.toList, ⟨⟨0, 0⟩, none⟩, false⟩

/-- `Editor::line_count`. -/
def Editor.line_count (e : Editor) : Nat := len_lines e.buf

/-- `Editor::char_count`. -/
def Editor.char_count (e : Editor) : Nat := len_chars e.buf

/-- `Editor::contents`: the whole buffer with a single trailing newline
stripped. -/
def Editor.contents (e : Editor) : Buf := trimmed e.buf

/-- `Editor::curr_ln_len`: length of the current line without its
terminator. -/
def curr_ln_len? (e : Editor) : Option Nat :=
  (line? e.buf e.selection.focus.ln).map fun l => (trimmed l).length

/-- `Editor::last_line`. -/
def last_line? (e : Editor) : Option Buf :=
  line? e.buf (len_lines e.buf - 1)

/-- `Editor::clamp`: clamp the focus column to the current line length. -/
def clamp (e : Editor) : Option Editor :=
  (curr_ln_len? e).map fun L =>
    { e with selection := { e.selection with focus :=
        { e.selection.focus with col := min e.selection.focus.col L } } }

/-- `Editor::rope_idx`: character index of a cursor plus a signed offset
(the source wraps in two's complement; a negative result is an index far
past the end, so every later bounds check fails exactly when the integer
value is negative or too large). -/
def rope_idx? (e : Editor) (c : Cursor) (offset : Int) : Option Int :=
  (line_to_char? e.buf c.ln).map fun ls => (ls : Int) + (c.col : Int) + offset

/-- `rope_idx` at offset `0`, which never wraps. -/
def rope_idx0 (e : Editor) (c : Cursor) : Option Nat :=
  (line_to_char? e.buf c.ln).map (· + c.col)

/-- `Selection::set_anchor`: anchor at the focus if extending and not yet
anchored; drop the anchor if not extending. -/
def Selection.set_anchor (sel : Selection) (anchored : Bool) : Selection :=
  if anchored then
    (if sel.anchor = none then { sel with anchor := some sel.focus } else sel)
  else { sel with anchor := none }

/-- `Selection::fix_anchor`: drop the anchor when it coincides with the
focus. -/
def Selection.fix_anchor (sel : Selection) : Selection :=
  if sel.anchor = some sel.focus then { sel with anchor := none } else sel

/-- `Editor::delete_char`: remove the character at the cursor plus
offset. -/
def delete_char (e : Editor) (offset : Int) : Option Editor := do
  let z ← rope_idx? e e.selection.focus offset
  if 0 ≤ z then do
    let b ← removeRange? e.buf z.toNat (z.toNat + 1)
    pure { e with buf := b }
  else none

/-- `Editor::insert_char`: insert a character at the cursor plus offset. -/
def insert_char (e : Editor) (offset : Int) (c : Char) : Option Editor := do
  let z ← rope_idx? e e.selection.focus offset
  if 0 ≤ z then do
    let b ← insertAt? e.buf z.toNat [c]
    pure { e with buf := b }
  else none

/-- `Editor::delete_selection`: remove the span between focus and anchor;
when the anchor comes first the focus is moved onto the stored anchor. -/
def delete_selection (e : Editor) (focus anchor : Cursor) : Option Editor := do
  let anchor_idx ← rope_idx0 e anchor
  let focus_idx ← rope_idx0 e focus
  if focus_idx < anchor_idx then do
    let b ← removeRange? e.buf focus_idx anchor_idx
    pure { e with
      buf := b,
      selection := { e.selection with anchor := none } }
  else do
    let f ← e.selection.anchor
    let b ← removeRange? e.buf anchor_idx focus_idx
    pure { e with
      buf := b,
      selection := ⟨f, none⟩ }

/-- `Editor::backspace`. -/
def backspace (e : Editor) : Option Editor := do
  let e ← clamp e
  match e.selection.anchor with
  | some anchor => delete_selection e e.selection.focus anchor
  | none =>
    if e.selection.focus.col > 0 then do
      let e' ← delete_char e (-1)
      pure { e' with selection := { e'.selection with focus :=
        { e'.selection.focus with col := e'.selection.focus.col - 1 } } }
    else if e.selection.focus.ln > 0 then do
      let col ← (line? e.buf (e.selection.focus.ln - 1)).map List.length
      let e' ← delete_char e (-1)
      pure { e' with selection := { e'.selection with focus :=
        ⟨e'.selection.focus.ln - 1, col - 1⟩ } }
    else pure e

/-- `Editor::delete` (forward delete). -/
def delete (e : Editor) : Option Editor := do
  let e ← clamp e
  match e.selection.anchor with
  | some anchor => delete_selection e e.selection.focus anchor
  | none => do
    let L ← curr_ln_len? e
    if e.selection.focus.col < L ∨ e.selection.focus.ln + 1 < e.line_count then
      delete_char e 0
    else pure e

/-- `Editor::move_right`. -/
def move_right (e : Editor) (anchored : Bool) : Option Editor := do
  let e ← clamp e
  let sel := e.selection.set_anchor anchored
  let L ← curr_ln_len? { e with selection := sel }
  let sel :=
    if sel.focus.col < L then
      { sel with focus := { sel.focus with col := sel.focus.col + 1 } }
    else if sel.focus.ln + 1 < len_lines e.buf then
      { sel with focus := ⟨sel.focus.ln + 1, 0⟩ }
    else sel
  pure { e with selection := sel.fix_anchor }

/-- `Editor::move_left`. -/
def move_left (e : Editor) (anchored : Bool) : Option Editor := do
  let e ← clamp e
  let sel := e.selection.set_anchor anchored
  if sel.focus.col > 0 then
    pure { e with selection := (Selection.fix_anchor
      { sel with focus := { sel.focus with col := sel.focus.col - 1 } }) }
  else if sel.focus.ln > 0 then do
    let sel' := { sel with focus := { sel.focus with ln := sel.focus.ln - 1 } }
    let L ← curr_ln_len? { e with selection := sel' }
    pure { e with selection := (Selection.fix_anchor
      { sel' with focus := { sel'.focus with col := L } }) }
  else
    pure { e with selection := sel.fix_anchor }

/-- `Editor::move_up`. -/
def move_up (e : Editor) (anchored : Bool) : Option Editor :=
  let sel := e.selection.set_anchor anchored
  let sel :=
    if sel.focus.ln = 0 then { sel with focus := { sel.focus with col := 0 } }
    else { sel with focus := { sel.focus with ln := sel.focus.ln - 1 } }
  some { e with selection := sel.fix_anchor }

/-- `Editor::move_down`. -/
def move_down (e : Editor) (anchored : Bool) : Option Editor :=
  let sel := e.selection.set_anchor anchored
  if sel.focus.ln + 1 = len_lines e.buf then
    (curr_ln_len? { e with selection := sel }).map fun L =>
      { e with selection := (Selection.fix_anchor
        { sel with focus := { sel.focus with col := L } }) }
  else
    some { e with selection := (Selection.fix_anchor
      { sel with focus := { sel.focus with ln := sel.focus.ln + 1 } }) }

/-- `Editor::move_to_col`. -/
def move_to_col (e : Editor) (col : Nat) (anchored : Bool) : Option Editor :=
  let sel := e.selection.set_anchor anchored
  some { e with selection := (Selection.fix_anchor
    { sel with focus := { sel.focus with col := col } }) }

/-- `Editor::move_to_top`: sets the focus line to `0` and touches nothing
else. -/
def move_to_top (e : Editor) : Option Editor :=
  some { e with selection := { e.selection with focus :=
    { e.selection.focus with ln := 0 } } }

/-- `Editor::move_to_bottom`: sets the focus line to `line_count - 1` and
touches nothing else. -/
def move_to_bottom (e : Editor) : Option Editor :=
  some { e with selection := { e.selection with focus :=
    { e.selection.focus with ln := e.line_count - 1 } } }

/-- `Editor::move_to_line_end`. -/
def move_to_line_end (e : Editor) (anchored : Bool) : Option Editor := do
  let L ← curr_ln_len? e
  move_to_col e L anchored

/-- `Editor::type_char`. -/
def type_char (e : Editor) (c : Char) : Option Editor := do
  let e ← clamp e
  let e ← match e.selection.anchor with
    | some anchor => delete_selection e e.selection.focus anchor
    | none => pure e
  let e ← insert_char e 0 c
  if c = '\n' then
    pure { e with selection := { e.selection with focus :=
      ⟨e.selection.focus.ln + 1, 0⟩ } }
  else
    pure { e with selection := { e.selection with focus :=
      { e.selection.focus with col := e.selection.focus.col + 1 } } }

/-- `Editor::insert_str`. -/
def insert_str (e : Editor) (s : Buf) : Option Editor := do
  let e ← clamp e
  let e ← match e.selection.anchor with
    | some anchor => delete_selection e e.selection.focus anchor
    | none => pure e
  let z ← rope_idx0 e e.selection.focus
  let b ← insertAt? e.buf z s
  let lines := (rustLines s).length.max 1
  let lastLen := ((rustLines s).getLastD []).length
  pure { e with
    buf := b,
    selection := { e.selection with focus :=
      ⟨e.selection.focus.ln + (lines - 1), e.selection.focus.col + lastLen⟩ } }

/-- `RESERVED_ROWS` of `src/renderer/full.rs`. -/
def RESERVED_ROWS : Nat := 2

/-- `CrosstermRenderer::calculate_draw_range` of `src/renderer/full.rs`:
the half-open line range to draw, from the terminal size query (`none`
when the query fails), the buffer line count and the cursor line.  It
reads nothing from the previous draw state. -/
def calculate_draw_range (size : Option Nat) (data_rows line : Nat) :
    Nat × Nat :=
  match size with
  | some rows =>
    let term_rows := rows - RESERVED_ROWS
    if data_rows > term_rows then
      if line + term_rows / 2 ≥ data_rows then
        (data_rows - term_rows, data_rows)
      else if term_rows / 2 > line then (0, term_rows)
      else (line - term_rows / 2, line + term_rows / 2 + term_rows % 2)
    else (0, data_rows)
  | none => (0, data_rows)

/-- The diff classification of `src/renderer/lazy.rs`. -/
inductive Diff where
  | NoChange
  | RedrawCursor
  | RedrawLine (line : Nat)
  | RedrawAll
deriving DecidableEq, Repr

/-- Indices at which the previous and new line snapshots differ (the loop
of `find_diff` counts them and remembers the last one). -/
def diffIndices (old new : List String) : List Nat :=
  (List.range old.length).filter fun i => decide (old[i]? ≠ new[i]?)

/-- `LazyRenderer::find_diff` of `src/renderer/lazy.rs`. -/
def find_diff (old new : List String) (prev_cursor cursor : Cursor) : Diff :=
  if old.length ≠ new.length then Diff.RedrawAll
  else
    let ds := diffIndices old new
    let changes := ds.length
    let line := ds.getLastD 0
    if changes = 0 then
      (if prev_cursor ≠ cursor then Diff.RedrawCursor else Diff.NoChange)
    else if changes = 1 then Diff.RedrawLine line
    else Diff.RedrawAll

/-- What `LazyRenderer::redraw` does for each classification: nothing, a
cursor reposition only, a single-line redraw of that one line, or a full
redraw. -/
inductive RedrawAction where
  | noop
  | cursorOnly
  | lineOnly (line : Nat)
  | full
deriving DecidableEq, Repr

/-- The dispatch performed by `LazyRenderer::redraw`: the match over
`find_diff`. -/
def redraw_action (old new : List String) (prev_cursor cursor : Cursor) :
    RedrawAction :=
  match find_diff old new prev_cursor cursor with
  | Diff.NoChange => RedrawAction.noop
  | Diff.RedrawCursor => RedrawAction.cursorOnly
  | Diff.RedrawLine l => RedrawAction.lineOnly l
  | Diff.RedrawAll => RedrawAction.full

/-! ### Basic lemmas about the buffer primitives -/

theorem takeLine_length_le (l : Buf) : (takeLine l).length ≤ l.length := by
  induction l with
  | nil => simp [takeLine]
  | cons c rest ih =>
    by_cases h : c = '\n' <;> simp [takeLine, h] <;> omega

theorem takeLine_ne_nil (l : Buf) (h : l ≠ []) : takeLine l ≠ [] := by
  match l with
  | c :: rest =>
    by_cases hc : c = '\n' <;> simp [takeLine, hc]

theorem countNl_cons (c : Char) (l : Buf) :
    countNl (c :: l) = countNl l + (if c = '\n' then 1 else 0) := by
  by_cases h : c = '\n' <;>
    simp [countNl, List.count_cons, h, eq_comm]

theorem countNl_append (a b : Buf) :
    countNl (a ++ b) = countNl a + countNl b := by
  simp [countNl, List.count_append]

theorem takeLine_of_countNl_zero (l : Buf) (h : countNl l = 0) :
    takeLine l = l := by
  induction l with
  | nil => rfl
  | cons c rest ih =>
    rw [countNl_cons] at h
    by_cases hc : c = '\n'
    · simp [hc] at h
    · simp only [takeLine, if_neg hc]
      rw [ih (by omega)]

theorem trimmed_of_countNl_zero (l : Buf) (h : countNl l = 0) :
    trimmed l = l := by
  by_cases h1 : l.length = 0
  · rw [trimmed, if_pos h1]
  · have h2 : l.getLast? ≠ some '\n' := by
      intro hg
      have hmem : '\n' ∈ l := by
        have h3 : l ≠ [] := by
          intro h0
          subst h0
          simp at hg
        rw [List.getLast?_eq_getLast_of_ne_nil h3] at hg
        rw [← Option.some.inj hg]
        exact List.getLast_mem h3
      have : 0 < l.count '\n' := List.count_pos_iff.mpr hmem
      simp only [countNl] at h
      omega
    rw [trimmed, if_neg h1, if_neg h2]

theorem trimmed_length_le (l : Buf) : (trimmed l).length ≤ l.length := by
  unfold trimmed
  split_ifs <;> simp [List.length_dropLast]

theorem trimmed_of_getLast_newline (l : Buf) (h : l.getLast? = some '\n') :
    trimmed l = l.dropLast := by
  have h1 : l.length ≠ 0 := by
    intro h0
    have : l = [] := List.length_eq_zero.mp h0
    subst this
    simp at h
  rw [trimmed, if_neg h1, if_pos h]

theorem line_start_le_length (s : Buf) (ln : Nat) :
    line_start s ln ≤ s.length := by
  induction s generalizing ln with
  | nil => cases ln <;> simp [line_start]
  | cons c rest ih =>
    cases ln with
    | zero => simp [line_start]
    | succ n =>
      simp only [line_start, List.length_cons]
      split_ifs with hc
      · have := ih n
        omega
      · have := ih (n + 1)
        omega

theorem countNl_take_line_start (s : Buf) (ln : Nat) (h : ln ≤ countNl s) :
    countNl (s.take (line_start s ln)) = ln := by
  induction s generalizing ln with
  | nil =>
    have : ln = 0 := by simp [countNl] at h; omega
    subst this
    simp [line_start, countNl]
  | cons c rest ih =>
    cases ln with
    | zero => simp [line_start, countNl]
    | succ n =>
      rw [countNl_cons] at h
      simp only [line_start]
      by_cases hc : c = '\n'
      · rw [if_pos hc, Nat.add_comm 1 (line_start rest n), List.take_succ_cons,
          countNl_cons, if_pos hc, ih n (by simp [hc] at h; omega)]
      · rw [if_neg hc, Nat.add_comm 1 (line_start rest (n + 1)), List.take_succ_cons,
          countNl_cons, if_neg hc, ih (n + 1) (by simp [hc] at h; omega)]

theorem countNl_drop_line_start (s : Buf) (ln : Nat) (h : ln ≤ countNl s) :
    countNl (s.drop (line_start s ln)) = countNl s - ln := by
  have h1 := countNl_take_line_start s ln h
  have h2 : countNl (s.take (line_start s ln)) +
      countNl (s.drop (line_start s ln)) = countNl s := by
    rw [← countNl_append, List.take_append_drop]
  omega

theorem line_start_succ (s : Buf) (ln : Nat) (h : ln ≤ countNl s) :
    line_start s (ln + 1) =
      line_start s ln + (takeLine (s.drop (line_start s ln))).length := by
  induction s generalizing ln with
  | nil =>
    have : ln = 0 := by simp [countNl] at h; omega
    subst this
    simp [line_start, takeLine]
  | cons c rest ih =>
    cases ln with
    | zero =>
      simp only [line_start, List.drop_zero, Nat.zero_add]
      by_cases hc : c = '\n'
      · simp [hc, takeLine, line_start]
      · simp only [if_neg hc, takeLine, List.length_cons]
        rw [ih 0 (Nat.zero_le _)]
        simp [line_start]
        omega
    | succ n =>
      rw [countNl_cons] at h
      by_cases hc : c = '\n'
      · simp only [line_start, if_pos hc]
        have hdrop : (c :: rest).drop (1 + line_start rest n) =
            rest.drop (line_start rest n) := by
          rw [Nat.add_comm, List.drop_succ_cons]
        rw [hdrop, ih n (by rw [if_pos hc] at h; omega)]
        omega
      · simp only [line_start, if_neg hc]
        have hdrop : (c :: rest).drop (1 + line_start rest (n + 1)) =
            rest.drop (line_start rest (n + 1)) := by
          rw [Nat.add_comm, List.drop_succ_cons]
        rw [hdrop, ih (n + 1) (by rw [if_neg hc] at h; omega)]
        omega

theorem line_start_pred_newline (s : Buf) (ln : Nat) (h1 : 1 ≤ ln)
    (h2 : ln ≤ countNl s) :
    1 ≤ line_start s ln ∧ s[line_start s ln - 1]? = some '\n' := by
  induction s generalizing ln with
  | nil => simp [countNl] at h2; omega
  | cons c rest ih =>
    obtain ⟨n, rfl⟩ : ∃ n, ln = n + 1 := ⟨ln - 1, by omega⟩
    rw [countNl_cons] at h2
    simp only [line_start]
    by_cases hc : c = '\n'
    · rw [if_pos hc]
      cases n with
      | zero =>
        refine ⟨by omega, ?_⟩
        simp [line_start, hc]
      | succ m =>
        have hm : m + 1 ≤ countNl rest := by simp [hc] at h2; omega
        obtain ⟨hpos, hnl⟩ := ih (m + 1) (by omega) hm
        refine ⟨by omega, ?_⟩
        have : 1 + line_start rest (m + 1) - 1 =
            (line_start rest (m + 1) - 1) + 1 := by omega
        rw [this, List.getElem?_cons_succ]
        exact hnl
    · rw [if_neg hc]
      have hm : n + 1 ≤ countNl rest := by simp [hc] at h2; omega
      obtain ⟨hpos, hnl⟩ := ih (n + 1) h1 hm
      refine ⟨by omega, ?_⟩
      have : 1 + line_start rest (n + 1) - 1 =
          (line_start rest (n + 1) - 1) + 1 := by omega
      rw [this, List.getElem?_cons_succ]
      exact hnl

theorem takeLine_getLast_newline (l : Buf) (h : countNl l ≠ 0) :
    (takeLine l).getLast? = some '\n' := by
  induction l with
  | nil => simp [countNl] at h
  | cons c rest ih =>
    by_cases hc : c = '\n'
    · simp [takeLine, hc]
    · rw [countNl_cons, if_neg hc] at h
      have hrest : countNl rest ≠ 0 := by omega
      have hne : takeLine rest ≠ [] := by
        apply takeLine_ne_nil
        intro h0
        subst h0
        simp [countNl] at hrest
      obtain ⟨x, xs, hx⟩ : ∃ x xs, takeLine rest = x :: xs := by
        cases hr : takeLine rest with
        | nil => exact absurd hr hne
        | cons x xs => exact ⟨x, xs, rfl⟩
      simp only [takeLine, if_neg hc, hx, List.getLast?_cons_cons]
      rw [← hx]
      exact ih hrest

/-! ### Claim theorems for the viewport planner (C1, C4) -/

/-- Claim C1 counterexample: with `N = 10` buffer lines, cursor line `3`,
row budget `T = 4` (terminal rows `6` minus the two reserved rows) and
previous range `(0, 4)` containing the cursor, `calculate_draw_range`
returns `(1, 5)`, not the previous range: the planner does not keep a
containing previous window. -/
theorem calculate_draw_range_ignores_prev_range :
    (0 ≤ 3 ∧ 3 < 4) ∧ 4 < 10 ∧
      calculate_draw_range (some 6) 10 3 = (1, 5) ∧
      calculate_draw_range (some 6) 10 3 ≠ (0, 4) := by decide

/-- Claim C1 (amended): the planner of `src/renderer/full.rs` ignores the
previously drawn range entirely (it is a function of the line count, the
cursor line and the terminal size alone); in place of window stability it
guarantees bounded movement: advancing the cursor one line never moves the
window start up, and moves it down by at most one line. -/
theorem calculate_draw_range_bounded_scroll (rows N c : Nat)
    (hTN : rows - RESERVED_ROWS < N) (hc : c + 1 < N) :
    (calculate_draw_range (some rows) N c).1 ≤
        (calculate_draw_range (some rows) N (c + 1)).1 ∧
      (calculate_draw_range (some rows) N (c + 1)).1 ≤
        (calculate_draw_range (some rows) N c).1 + 1 := by
  simp only [calculate_draw_range, RESERVED_ROWS] at *
  split_ifs <;> constructor <;> simp_all <;> omega

/-- Witness for `calculate_draw_range_bounded_scroll` at
`rows = 6`, `N = 10`, `c = 3`. -/
theorem calculate_draw_range_bounded_scroll_witness :
    (calculate_draw_range (some 6) 10 3).1 ≤
        (calculate_draw_range (some 6) 10 (3 + 1)).1 ∧
      (calculate_draw_range (some 6) 10 (3 + 1)).1 ≤
        (calculate_draw_range (some 6) 10 3).1 + 1 :=
  calculate_draw_range_bounded_scroll 6 10 3 (by decide) (by decide)

/-- Claim C4: viewport containment.  For every line count `N`, cursor line
`c < N` and row budget `T = rows - RESERVED_ROWS` with `0 < T < N`, the
planned range `(low, high)` satisfies `low ≤ c < high` and
`high - low = T`. -/
theorem calculate_draw_range_containment (rows N c : Nat)
    (hT : 0 < rows - RESERVED_ROWS) (hTN : rows - RESERVED_ROWS < N)
    (hc : c < N) :
    (calculate_draw_range (some rows) N c).1 ≤ c ∧
      c < (calculate_draw_range (some rows) N c).2 ∧
      (calculate_draw_range (some rows) N c).2 -
          (calculate_draw_range (some rows) N c).1 = rows - RESERVED_ROWS := by
  simp only [calculate_draw_range, RESERVED_ROWS] at *
  split_ifs <;> refine ⟨?_, ?_, ?_⟩ <;> simp_all <;> omega

/-- Witness for `calculate_draw_range_containment` at
`rows = 6`, `N = 10`, `c = 3`. -/
theorem calculate_draw_range_containment_witness :
    (calculate_draw_range (some 6) 10 3).1 ≤ 3 ∧
      3 < (calculate_draw_range (some 6) 10 3).2 ∧
      (calculate_draw_range (some 6) 10 3).2 -
          (calculate_draw_range (some 6) 10 3).1 = 6 - RESERVED_ROWS :=
  calculate_draw_range_containment 6 10 3 (by decide) (by decide) (by decide)

/-! ### Result text (C9) and at-least-one-line invariant (C10) -/

/-- Claim C9: `contents` returns the full buffer with exactly one trailing
line terminator stripped when one is present (appending the terminator
back recovers the buffer), and the text unchanged otherwise; a fresh empty
editor yields the empty string. -/
theorem contents_trims_single_newline (e : Editor) :
    (e.buf.getLast? = some '\n' → Editor.contents e ++ ['\n'] = e.buf) ∧
      (e.buf.getLast? ≠ some '\n' → Editor.contents e = e.buf) ∧
      Editor.contents (mkEditor "") = [] := by
  refine ⟨?_, ?_, rfl⟩
  · intro h
    rw [Editor.contents, trimmed_of_getLast_newline _ h]
    exact List.dropLast_append_getLast? '\n' (by simp [h])
  · intro h
    rw [Editor.contents]
    by_cases h1 : e.buf.length = 0
    · rw [trimmed, if_pos h1]
    · rw [trimmed, if_neg h1, if_neg h]

/-- Witness for `contents_trims_single_newline` at the buffer `"ab\n"`. -/
theorem contents_trims_single_newline_witness :
    Editor.contents (mkEditor "ab\n") ++ ['\n'] = (mkEditor "ab\n").buf :=
  (contents_trims_single_newline (mkEditor "ab\n")).1 (by decide)

/-- Claim C10: every editor state (in particular every reachable one)
reports at least one line, so `move_to_bottom`'s `line_count - 1` never
underflows (adding one recovers `line_count`) and `last_line` is always
defined; the default empty editor reports exactly one line, the empty
line. -/
theorem line_count_at_least_one (e : Editor) :
    1 ≤ e.line_count ∧
      (e.line_count - 1) + 1 = e.line_count ∧
      (move_to_bottom e).map (fun x => x.selection.focus.ln) =
        some (e.line_count - 1) ∧
      (last_line? e).isSome = true ∧
      (mkEditor "").line_count = 1 ∧
      line? (mkEditor "").buf 0 = some [] := by
  refine ⟨?_, ?_, ?_, ?_, by decide, by decide⟩
  · simp [Editor.line_count, len_lines]
  · simp [Editor.line_count, len_lines]
  · simp [move_to_bottom]
  · rw [last_line?, line?, if_pos]
    · rfl
    · simp [len_lines]

/-! ### Change classification of redraw (C2) -/

theorem mem_diffIndices (old new : List String) (i : Nat) :
    i ∈ diffIndices old new ↔ i < old.length ∧ old[i]? ≠ new[i]? := by
  simp [diffIndices, List.mem_filter, List.mem_range]

theorem diffIndices_eq_nil (old new : List String)
    (h : ∀ i, i < old.length → old[i]? = new[i]?) :
    diffIndices old new = [] := by
  rw [diffIndices, List.filter_eq_nil_iff]
  intro a ha
  simp only [List.mem_range] at ha
  simp [h a ha]

theorem filter_range_eq_singleton (n l : Nat) (p : Nat → Bool) (hl : l < n)
    (hp : p l = true) (ho : ∀ i, i < n → i ≠ l → p i = false) :
    (List.range n).filter p = [l] := by
  induction n with
  | zero => omega
  | succ n ih =>
    rw [List.range_succ, List.filter_append]
    by_cases h : l = n
    · subst h
      have h1 : (List.range l).filter p = [] := by
        rw [List.filter_eq_nil_iff]
        intro a ha
        simp only [List.mem_range] at ha
        simp [ho a (by omega) (by omega)]
      simp [h1, hp]
    · have h1 : (List.range n).filter p = [l] :=
        ih (by omega) (fun i hi hne => ho i (by omega) hne)
      have h2 : p n = false := ho n (by omega) (fun hh => h hh.symm)
      simp [h1, h2]

theorem length_ge_two_of_two_mem {a b : Nat} (l : List Nat) (hne : a ≠ b)
    (ha : a ∈ l) (hb : b ∈ l) : 2 ≤ l.length := by
  match l with
  | [] => simp at ha
  | [x] =>
    simp only [List.mem_singleton] at ha hb
    exact absurd (ha.trans hb.symm) hne
  | x :: y :: t => simp only [List.length_cons]; omega

/-- Claim C2: change classification of `redraw`.  With equal-length
snapshots, zero textual differences and an unchanged cursor yield a no-op;
zero differences with a changed cursor yield a cursor-only reposition;
exactly one differing line yields a single-line redraw of exactly that
line and no other; two or more differences, or a changed snapshot length,
yield a full redraw. -/
theorem redraw_change_classification (old new : List String)
    (pc c : Cursor) :
    (old.length ≠ new.length →
      redraw_action old new pc c = RedrawAction.full) ∧
    (old.length = new.length →
      ((∀ i, i < old.length → old[i]? = new[i]?) →
        (pc = c → redraw_action old new pc c = RedrawAction.noop) ∧
        (pc ≠ c → redraw_action old new pc c = RedrawAction.cursorOnly)) ∧
      (∀ l, l < old.length → old[l]? ≠ new[l]? →
        (∀ i, i < old.length → i ≠ l → old[i]? = new[i]?) →
        redraw_action old new pc c = RedrawAction.lineOnly l) ∧
      (∀ i j, i < old.length → j < old.length → i ≠ j →
        old[i]? ≠ new[i]? → old[j]? ≠ new[j]? →
        redraw_action old new pc c = RedrawAction.full)) := by
  constructor
  · intro h
    rw [redraw_action, find_diff, if_pos h]
  · intro hlen
    refine ⟨?_, ?_, ?_⟩
    · intro hall
      have hnil : diffIndices old new = [] := diffIndices_eq_nil old new hall
      constructor
      · intro hpc
        have hfd : find_diff old new pc c = Diff.NoChange := by
          rw [find_diff, if_neg (by simp [hlen])]
          simp [hnil, hpc]
        rw [redraw_action, hfd]
      · intro hpc
        have hfd : find_diff old new pc c = Diff.RedrawCursor := by
          rw [find_diff, if_neg (by simp [hlen])]
          simp [hnil, hpc]
        rw [redraw_action, hfd]
    · intro l hl hd ho
      have hone : diffIndices old new = [l] := by
        apply filter_range_eq_singleton old.length l _ hl
        · simp [hd]
        · intro i hi hne
          simp [ho i hi hne]
      have hfd : find_diff old new pc c = Diff.RedrawLine l := by
        rw [find_diff, if_neg (by simp [hlen])]
        simp [hone]
      rw [redraw_action, hfd]
    · intro i j hi hj hij hdi hdj
      have hmi : i ∈ diffIndices old new := (mem_diffIndices old new i).mpr ⟨hi, hdi⟩
      have hmj : j ∈ diffIndices old new := (mem_diffIndices old new j).mpr ⟨hj, hdj⟩
      have h2 : 2 ≤ (diffIndices old new).length :=
        length_ge_two_of_two_mem (diffIndices old new) hij hmi hmj
      have hfd : find_diff old new pc c = Diff.RedrawAll := by
        rw [find_diff, if_neg (by simp [hlen])]
        have hz : ¬ (diffIndices old new).length = 0 := by omega
        have ho : ¬ (diffIndices old new).length = 1 := by omega
        simp [hz, ho]
      rw [redraw_action, hfd]

/-- Witness for `redraw_change_classification`: two visible lines, only
line `1` changed, so the action is a single-line redraw of line `1`. -/
theorem redraw_change_classification_witness :
    redraw_action ["ab", "cd"] ["ab", "ce"] ⟨0, 0⟩ ⟨1, 2⟩ =
      RedrawAction.lineOnly 1 :=
  ((redraw_change_classification ["ab", "cd"] ["ab", "ce"] ⟨0, 0⟩ ⟨1, 2⟩).2
    rfl).2.1 1 (by decide) (by decide) (by decide)

/-! ### The Text Model can fail: claim C3 -/

/-- Claim C3 is violated by the code: starting from the valid initial
buffer `"x\nabc\ny"` with the cursor at the origin, the in-range
operation sequence Down, `move_to_col 3`, Down, Shift-Down, Delete drives
the editor into an out-of-bounds rope removal.  `move_down` records the
anchor *before* clamping the focus column, so the anchor `(2, 3)` lies
past the end of line `2` (`"y"`); `delete` then computes the rope span
`7..9` on a 7-character buffer, which makes `Rope::remove` fail. -/
theorem delete_after_unclamped_anchor_fails :
    (do
      let e1 ← move_down (mkEditor "x\nabc\ny") false
      let e2 ← move_to_col e1 3 false
      let e3 ← move_down e2 false
      let e4 ← move_down e3 true
      delete e4) = (none : Option Editor) := by decide

/-! ### Split/join round trip (C7) -/

theorem line_start_zero (s : Buf) : line_start s 0 = 0 := by
  cases s <;> rfl

theorem takeLine_append_newline (xs ys : Buf) (h : countNl xs = 0) :
    takeLine (xs ++ '\n' :: ys) = xs ++ ['\n'] := by
  induction xs with
  | nil => simp [takeLine]
  | cons c rest ih =>
    rw [countNl_cons] at h
    have hc : c ≠ '\n' := by
      intro hc
      rw [if_pos hc] at h
      omega
    have hr := ih (by omega)
    simp [takeLine, hc, hr]

theorem line_start_one_append (xs ys : Buf) (h : countNl xs = 0) :
    line_start (xs ++ '\n' :: ys) 1 = xs.length + 1 := by
  induction xs with
  | nil => simp [line_start]
  | cons c rest ih =>
    rw [countNl_cons] at h
    have hc : c ≠ '\n' := by
      intro hc
      rw [if_pos hc] at h
      omega
    have hr := ih (by omega)
    simp [line_start, hc, hr]
    omega

theorem drop_append_succ (xs ys : Buf) (c : Char) :
    (xs ++ c :: ys).drop (xs.length + 1) = ys := by
  rw [show xs ++ c :: ys = (xs ++ [c]) ++ ys by simp]
  have hlen : (xs ++ [c]).length = xs.length + 1 := by simp
  rw [← hlen, List.drop_left]

theorem bindSome {α β : Type} (a : α) (f : α → Option β) :
    (some a : Option α) >>= f = f a := rfl

/-- Claim C7: on a single-line editor with the cursor at column
`k ≤ length`, typing a newline splits the line at `k` and leaves the
cursor at `(1, 0)`, and an immediately following backspace restores the
original buffer and cursor exactly. -/
theorem enter_backspace_round_trip (s : Buf) (k : Nat)
    (h0 : countNl s = 0) (hk : k ≤ s.length) :
    type_char ⟨s, ⟨⟨0, k⟩, none⟩, false⟩ '\n' =
      some ⟨s.take k ++ '\n' :: s.drop k, ⟨⟨1, 0⟩, none⟩, false⟩ ∧
    (type_char ⟨s, ⟨⟨0, k⟩, none⟩, false⟩ '\n').bind backspace =
      some ⟨s, ⟨⟨0, k⟩, none⟩, false⟩ := by
  have htakeNl : countNl (s.take k) = 0 ∧ countNl (s.drop k) = 0 := by
    have hsplit : countNl (s.take k) + countNl (s.drop k) = countNl s := by
      rw [← countNl_append, List.take_append_drop]
    omega
  have hlentake : (s.take k).length = k := by
    simp [List.length_take]
    omega
  have hline0 : line? s 0 = some s := by
    rw [line?, if_pos (by simp [len_lines])]
    rw [line_start_zero, List.drop_zero, takeLine_of_countNl_zero s h0]
  have hclamp : clamp ⟨s, ⟨⟨0, k⟩, none⟩, false⟩ =
      some ⟨s, ⟨⟨0, k⟩, none⟩, false⟩ := by
    rw [clamp, curr_ln_len?, hline0]
    simp [trimmed_of_countNl_zero s h0, Nat.min_eq_left hk]
  have hz : rope_idx? ⟨s, ⟨⟨0, k⟩, none⟩, false⟩ ⟨0, k⟩ 0 = some (k : Int) := by
    rw [rope_idx?, line_to_char?, if_pos (by simp [len_lines])]
    simp [line_start_zero]
  have hins : insert_char ⟨s, ⟨⟨0, k⟩, none⟩, false⟩ 0 '\n' =
      some ⟨s.take k ++ '\n' :: s.drop k, ⟨⟨0, k⟩, none⟩, false⟩ := by
    simp only [insert_char, hz, bindSome]
    rw [if_pos (by omega : (0 : Int) ≤ (k : Int))]
    simp only [Int.toNat_natCast, insertAt?]
    rw [if_pos (by simpa using hk)]
    simp only [bindSome]
    simp
  have htc : type_char ⟨s, ⟨⟨0, k⟩, none⟩, false⟩ '\n' =
      some ⟨s.take k ++ '\n' :: s.drop k, ⟨⟨1, 0⟩, none⟩, false⟩ := by
    rw [type_char, hclamp]
    simp only [bindSome]
    show (Bind.bind (insert_char ⟨s, ⟨⟨0, k⟩, none⟩, false⟩ 0 '\n') fun e =>
      if '\n' = '\n' then
        (pure ⟨e.buf, ⟨⟨e.selection.focus.ln + 1, 0⟩, e.selection.anchor⟩,
          e.altscreen⟩ : Option Editor)
      else
        pure ⟨e.buf, ⟨⟨e.selection.focus.ln, e.selection.focus.col + 1⟩,
          e.selection.anchor⟩, e.altscreen⟩) = _
    rw [hins]
    rfl
  refine ⟨htc, ?_⟩
  rw [htc]
  show backspace ⟨s.take k ++ '\n' :: s.drop k, ⟨⟨1, 0⟩, none⟩, false⟩ =
    some ⟨s, ⟨⟨0, k⟩, none⟩, false⟩
  have hcount1 : countNl (s.take k ++ '\n' :: s.drop k) = 1 := by
    rw [countNl_append, countNl_cons]
    simp [htakeNl.1, htakeNl.2]
  have hls1 : line_start (s.take k ++ '\n' :: s.drop k) 1 = k + 1 := by
    rw [line_start_one_append _ _ htakeNl.1, hlentake]
  have hdrop1 : (s.take k ++ '\n' :: s.drop k).drop (k + 1) = s.drop k := by
    have h := drop_append_succ (s.take k) (s.drop k) '\n'
    rwa [hlentake] at h
  have htake1 : (s.take k ++ '\n' :: s.drop k).take k = s.take k := by
    have h := List.take_left (s.take k) ('\n' :: s.drop k)
    rwa [hlentake] at h
  have hline1 : line? (s.take k ++ '\n' :: s.drop k) 1 = some (s.drop k) := by
    rw [line?, if_pos (by simp [len_lines, hcount1])]
    rw [hls1, hdrop1, takeLine_of_countNl_zero _ htakeNl.2]
  have hclamp1 : clamp ⟨s.take k ++ '\n' :: s.drop k, ⟨⟨1, 0⟩, none⟩, false⟩ =
      some ⟨s.take k ++ '\n' :: s.drop k, ⟨⟨1, 0⟩, none⟩, false⟩ := by
    rw [clamp, curr_ln_len?, hline1]
    simp
  have hline0b : line? (s.take k ++ '\n' :: s.drop k) 0 =
      some (s.take k ++ ['\n']) := by
    rw [line?, if_pos (by simp [len_lines])]
    rw [line_start_zero, List.drop_zero, takeLine_append_newline _ _ htakeNl.1]
  have hzb : rope_idx? ⟨s.take k ++ '\n' :: s.drop k, ⟨⟨1, 0⟩, none⟩, false⟩
      ⟨1, 0⟩ (-1) = some (k : Int) := by
    rw [rope_idx?, line_to_char?, if_pos (by simp [len_lines, hcount1])]
    simp [hls1]
  have hrm : removeRange? (s.take k ++ '\n' :: s.drop k) k (k + 1) = some s := by
    rw [removeRange?, if_pos]
    · rw [htake1, hdrop1, List.take_append_drop]
    · refine ⟨by omega, ?_⟩
      simp only [List.length_append, List.length_cons, List.length_drop, hlentake]
      omega
  have hdel : delete_char ⟨s.take k ++ '\n' :: s.drop k, ⟨⟨1, 0⟩, none⟩, false⟩
      (-1) = some ⟨s, ⟨⟨1, 0⟩, none⟩, false⟩ := by
    simp only [delete_char, hzb, bindSome]
    rw [if_pos (by omega : (0 : Int) ≤ (k : Int))]
    simp only [Int.toNat_natCast]
    rw [hrm]
    rfl
  have hcol : (line? (s.take k ++ '\n' :: s.drop k) 0).map List.length =
      some (k + 1) := by
    rw [hline0b]
    simp [hlentake]
  rw [backspace, hclamp1]
  simp only [bindSome]
  show (Bind.bind ((line? (s.take k ++ '\n' :: s.drop k) 0).map List.length)
    fun col => Bind.bind
      (delete_char ⟨s.take k ++ '\n' :: s.drop k, ⟨⟨1, 0⟩, none⟩, false⟩ (-1))
      fun e' => (pure ⟨e'.buf, ⟨⟨e'.selection.focus.ln - 1, col - 1⟩,
        e'.selection.anchor⟩, e'.altscreen⟩ : Option Editor)) = _
  rw [hcol]
  simp only [bindSome]
  rw [hdel]
  rfl

/-- Witness for `enter_backspace_round_trip`: scenario 3 of the spec,
buffer `"abcdef"`, cursor `(0, 3)`. -/
theorem enter_backspace_round_trip_witness :
    type_char ⟨"abcdef".toList, ⟨⟨0, 3⟩, none⟩, false⟩ '\n' =
      some ⟨"abcdef".toList.take 3 ++ '\n' :: "abcdef".toList.drop 3,
        ⟨⟨1, 0⟩, none⟩, false⟩ ∧
    (type_char ⟨"abcdef".toList, ⟨⟨0, 3⟩, none⟩, false⟩ '\n').bind backspace =
      some ⟨"abcdef".toList, ⟨⟨0, 3⟩, none⟩, false⟩ :=
  enter_backspace_round_trip "abcdef".toList 3 (by decide) (by decide)

/-! ### Backspace line join (C6) -/

/-- Claim C6: with no active selection, clamped column `0` and focus line
`ln > 0`, backspace removes exactly the newline that terminates line
`ln - 1` (the character at index `line_start ln - 1`, splicing line `ln`
onto the end of line `ln - 1`) and moves the focus to `(ln - 1, length of
line ln - 1 before the splice)`. -/
theorem backspace_line_join (e : Editor) (L : Nat)
    (hanch : e.selection.anchor = none)
    (hln : 0 < e.selection.focus.ln)
    (hlt : e.selection.focus.ln < len_lines e.buf)
    (hL : curr_ln_len? e = some L)
    (hcol : min e.selection.focus.col L = 0) :
    backspace e = some
      ⟨e.buf.take (line_start e.buf e.selection.focus.ln - 1) ++
          e.buf.drop (line_start e.buf e.selection.focus.ln),
        ⟨⟨e.selection.focus.ln - 1,
          (trimmed (takeLine (e.buf.drop
            (line_start e.buf (e.selection.focus.ln - 1))))).length⟩, none⟩,
        e.altscreen⟩ ∧
      e.buf[line_start e.buf e.selection.focus.ln - 1]? = some '\n' := by
  obtain ⟨buf, ⟨⟨ln, col⟩, anch⟩, alt⟩ := e
  dsimp only at hanch hln hlt hL hcol ⊢
  subst hanch
  have hcnt : ln ≤ countNl buf := by
    simp only [len_lines] at hlt
    omega
  obtain ⟨hp1, hp2⟩ := line_start_pred_newline buf ln hln hcnt
  have hplen : line_start buf ln ≤ buf.length := line_start_le_length buf ln
  refine ⟨?_, hp2⟩
  have hclamp : clamp ⟨buf, ⟨⟨ln, col⟩, none⟩, alt⟩ =
      some ⟨buf, ⟨⟨ln, 0⟩, none⟩, alt⟩ := by
    rw [clamp, hL]
    simp [hcol]
  have hz : rope_idx? ⟨buf, ⟨⟨ln, 0⟩, none⟩, alt⟩ ⟨ln, 0⟩ (-1) =
      some ((line_start buf ln : Int) - 1) := by
    rw [rope_idx?, line_to_char?, if_pos (by simp only [len_lines]; omega)]
    simp
    omega
  have hdel : delete_char ⟨buf, ⟨⟨ln, 0⟩, none⟩, alt⟩ (-1) =
      some ⟨buf.take (line_start buf ln - 1) ++ buf.drop (line_start buf ln),
        ⟨⟨ln, 0⟩, none⟩, alt⟩ := by
    simp only [delete_char, hz, bindSome]
    rw [if_pos (by omega : (0 : Int) ≤ (line_start buf ln : Int) - 1)]
    rw [show ((line_start buf ln : Int) - 1).toNat = line_start buf ln - 1 by omega]
    rw [show line_start buf ln - 1 + 1 = line_start buf ln by omega]
    rw [removeRange?, if_pos ⟨by omega, hplen⟩]
    rfl
  have hlm1 : ln - 1 < len_lines buf := by
    simp only [len_lines] at hlt ⊢
    omega
  have hlcol : (line? buf (ln - 1)).map List.length =
      some (takeLine (buf.drop (line_start buf (ln - 1)))).length := by
    rw [line?, if_pos hlm1]
    rfl
  have hnl2 : (takeLine (buf.drop (line_start buf (ln - 1)))).getLast? =
      some '\n' := by
    apply takeLine_getLast_newline
    rw [countNl_drop_line_start buf (ln - 1) (by omega)]
    omega
  have hlen2 : (trimmed (takeLine (buf.drop (line_start buf (ln - 1))))).length =
      (takeLine (buf.drop (line_start buf (ln - 1)))).length - 1 := by
    rw [trimmed_of_getLast_newline _ hnl2]
    simp [List.length_dropLast]
  rw [backspace, hclamp]
  simp only [bindSome]
  show (if ln > 0 then
      Bind.bind ((line? buf (ln - 1)).map List.length) fun c2 =>
        Bind.bind (delete_char ⟨buf, ⟨⟨ln, 0⟩, none⟩, alt⟩ (-1)) fun e' =>
          (pure ⟨e'.buf, ⟨⟨e'.selection.focus.ln - 1, c2 - 1⟩,
            e'.selection.anchor⟩, e'.altscreen⟩ : Option Editor)
    else pure ⟨buf, ⟨⟨ln, 0⟩, none⟩, alt⟩) = _
  rw [if_pos hln, hlcol]
  simp only [bindSome]
  rw [hdel]
  simp only [bindSome]
  rw [hlen2]
  rfl

/-- Witness for `backspace_line_join`: scenario 2 of the spec, buffer
`["abc", "def"]` with the cursor at `(1, 0)`; backspace yields
`["abcdef"]` with the cursor at `(0, 3)`. -/
theorem backspace_line_join_witness :
    backspace ⟨"abc\ndef".toList, ⟨⟨1, 0⟩, none⟩, false⟩ =
      some ⟨"abc\ndef".toList.take (line_start "abc\ndef".toList 1 - 1) ++
          "abc\ndef".toList.drop (line_start "abc\ndef".toList 1),
        ⟨⟨0, (trimmed (takeLine ("abc\ndef".toList.drop
          (line_start "abc\ndef".toList 0)))).length⟩, none⟩, false⟩ ∧
      "abc\ndef".toList[line_start "abc\ndef".toList 1 - 1]? = some '\n' :=
  backspace_line_join ⟨"abc\ndef".toList, ⟨⟨1, 0⟩, none⟩, false⟩ 3
    rfl (by decide) (by decide) (by decide) (by decide)

/-- The concrete splice of the witness, fully evaluated: the joined buffer
is `"abcdef"` and the cursor lands at `(0, 3)`. -/
theorem backspace_line_join_concrete :
    backspace ⟨"abc\ndef".toList, ⟨⟨1, 0⟩, none⟩, false⟩ =
      some ⟨"abcdef".toList, ⟨⟨0, 3⟩, none⟩, false⟩ := by decide

/-! ### Multi-line string insertion (C5) -/

theorem splitNl_ne_nil (s : Buf) : splitNl s ≠ [] := by
  cases s with
  | nil => simp [splitNl]
  | cons c rest =>
    simp only [splitNl]
    cases h : splitNl rest with
    | nil => simp
    | cons l ls => split_ifs <;> simp

theorem splitNl_length (s : Buf) : (splitNl s).length = countNl s + 1 := by
  induction s with
  | nil => simp [splitNl, countNl]
  | cons c rest ih =>
    rw [countNl_cons]
    simp only [splitNl]
    cases h : splitNl rest with
    | nil => exact absurd h (splitNl_ne_nil rest)
    | cons l ls =>
      rw [h] at ih
      by_cases hc : c = '\n'
      · rw [if_pos hc]
        simp only [List.length_cons] at ih ⊢
        simp [hc]
        omega
      · rw [if_neg hc]
        simp only [List.length_cons] at ih ⊢
        simp [hc]
        omega

theorem afterLastNl_of_countNl_zero (s : Buf) (h : countNl s = 0) :
    afterLastNl s = s := by
  cases s with
  | nil => rfl
  | cons c rest =>
    rw [countNl_cons] at h
    have hc : c ≠ '\n' := by
      intro hc
      rw [if_pos hc] at h
      omega
    simp [afterLastNl, show countNl rest = 0 by omega, hc]

theorem splitNl_of_countNl_zero (s : Buf) (h : countNl s = 0) :
    splitNl s = [s] := by
  induction s with
  | nil => rfl
  | cons c rest ih =>
    rw [countNl_cons] at h
    have hc : c ≠ '\n' := by
      intro hc
      rw [if_pos hc] at h
      omega
    have hr : splitNl rest = [rest] := ih (by omega)
    simp [splitNl, hr, hc]

theorem splitNl_getLast? (s : Buf) :
    (splitNl s).getLast? = some (afterLastNl s) := by
  induction s with
  | nil => rfl
  | cons c rest ih =>
    by_cases h0 : countNl rest = 0
    · have hr : splitNl rest = [rest] := splitNl_of_countNl_zero rest h0
      by_cases hc : c = '\n'
      · simp [splitNl, hr, hc, afterLastNl, h0]
      · simp [splitNl, hr, hc, afterLastNl, h0]
    · cases hsp : splitNl rest with
      | nil => exact absurd hsp (splitNl_ne_nil rest)
      | cons l ls =>
        have hls : ls ≠ [] := by
          have hl := splitNl_length rest
          rw [hsp] at hl
          intro h0'
          subst h0'
          simp at hl
          omega
        rw [hsp] at ih
        simp only [splitNl, hsp]
        by_cases hc : c = '\n'
        · rw [if_pos hc, List.getLast?_cons_cons, ih]
          simp [afterLastNl, h0, hc]
        · rw [if_neg hc]
          obtain ⟨x, xs, rfl⟩ : ∃ x xs, ls = x :: xs := by
            cases ls with
            | nil => exact absurd rfl hls
            | cons x xs => exact ⟨x, xs, rfl⟩
          rw [List.getLast?_cons_cons] at ih ⊢
          rw [ih]
          simp [afterLastNl, h0, hc]

theorem afterLastNl_ne_nil (s : Buf) (hne : s ≠ []) (h : s.getLast? ≠ some '\n') :
    afterLastNl s ≠ [] := by
  induction s with
  | nil => exact absurd rfl hne
  | cons c rest ih =>
    by_cases h0 : countNl rest = 0
    · by_cases hc : c = '\n'
      · simp only [afterLastNl, if_pos h0, if_pos hc]
        cases rest with
        | nil =>
          exfalso
          apply h
          simp [hc]
        | cons x xs => simp
      · simp [afterLastNl, h0, hc]
    · have hrne : rest ≠ [] := by
        intro h0'
        subst h0'
        simp [countNl] at h0
      obtain ⟨x, xs, rfl⟩ : ∃ x xs, rest = x :: xs := by
        cases rest with
        | nil => exact absurd rfl hrne
        | cons x xs => exact ⟨x, xs, rfl⟩
      rw [List.getLast?_cons_cons] at h
      simp only [afterLastNl, if_neg h0]
      exact ih (by simp) h

theorem rustLines_count (s : Buf) (h : s.getLast? ≠ some '\n') :
    (rustLines s).length.max 1 - 1 = countNl s := by
  by_cases hne : s = []
  · subst hne
    rfl
  · obtain ⟨x, xs, hxs⟩ : ∃ x xs, afterLastNl s = x :: xs := by
      cases ha : afterLastNl s with
      | nil => exact absurd ha (afterLastNl_ne_nil s hne h)
      | cons x xs => exact ⟨x, xs, rfl⟩
    rw [rustLines, splitNl_getLast? s, hxs]
    simp only [List.length_append, List.length_map, List.length_dropLast,
      splitNl_length, List.length_cons, List.length_nil]
    have hmax : (countNl s + 1 - 1 + (0 + 1)).max 1 = countNl s + 1 := by
      simp [Nat.max_def]
    rw [hmax]
    omega

theorem rustLines_getLastD (s : Buf) (h : s.getLast? ≠ some '\n') :
    (rustLines s).getLastD [] = afterLastNl s := by
  by_cases hne : s = []
  · subst hne
    rfl
  · obtain ⟨x, xs, hxs⟩ : ∃ x xs, afterLastNl s = x :: xs := by
      cases ha : afterLastNl s with
      | nil => exact absurd ha (afterLastNl_ne_nil s hne h)
      | cons x xs => exact ⟨x, xs, rfl⟩
    rw [rustLines, splitNl_getLast? s, hxs]
    rw [List.getLastD_eq_getLast?, List.getLast?_concat]
    simp [hxs]

/-- Claim C5 counterexample: inserting `"c\nd"` (one embedded newline,
final segment `"d"` of length `1`) into `"ab"` at the clamped cursor
`(0, 2)` leaves the focus at `(1, 3)`: the line does advance by one, but
the column is the old column plus the segment length, not the segment
length `1` the claim requires. -/
theorem insert_str_column_counterexample :
    (insert_str ⟨"ab".toList, ⟨⟨0, 2⟩, none⟩, false⟩ "c\nd".toList).map
        (fun e => e.selection.focus) = some ⟨1, 3⟩ ∧
      (3 : Nat) ≠ ("d".toList).length := by decide

/-- Claim C5 (amended): for a string `s` that does not end in a newline,
`insert_str` at a clamped cursor with no selection inserts `s` at the
cursor's character index, advances the focus line by exactly the number
of newlines in `s`, and sets the focus column to the pre-insertion column
plus the length of the text after the last newline of `s`. -/
theorem insert_str_advance (e : Editor) (s : Buf) (L : Nat)
    (hanch : e.selection.anchor = none)
    (hlt : e.selection.focus.ln < len_lines e.buf)
    (hL : curr_ln_len? e = some L)
    (hcol : e.selection.focus.col ≤ L)
    (hs : s.getLast? ≠ some '\n') :
    insert_str e s = some
      ⟨e.buf.take (line_start e.buf e.selection.focus.ln +
            e.selection.focus.col) ++ s ++
          e.buf.drop (line_start e.buf e.selection.focus.ln +
            e.selection.focus.col),
        ⟨⟨e.selection.focus.ln + countNl s,
          e.selection.focus.col + (afterLastNl s).length⟩, none⟩,
        e.altscreen⟩ := by
  obtain ⟨buf, ⟨⟨ln, col⟩, anch⟩, alt⟩ := e
  dsimp only at hanch hlt hL hcol ⊢
  subst hanch
  have hcnt : ln ≤ countNl buf := by
    simp only [len_lines] at hlt
    omega
  have hLval : (trimmed (takeLine (buf.drop (line_start buf ln)))).length = L := by
    rw [curr_ln_len?, line?] at hL
    rw [if_pos hlt] at hL
    simpa using hL
  have hbound : line_start buf ln + col ≤ buf.length := by
    have h1 := line_start_succ buf ln hcnt
    have h2 := line_start_le_length buf (ln + 1)
    have h3 := trimmed_length_le (takeLine (buf.drop (line_start buf ln)))
    omega
  have hclamp : clamp ⟨buf, ⟨⟨ln, col⟩, none⟩, alt⟩ =
      some ⟨buf, ⟨⟨ln, col⟩, none⟩, alt⟩ := by
    rw [clamp, hL]
    simp [Nat.min_eq_left hcol]
  have hz : rope_idx0 ⟨buf, ⟨⟨ln, col⟩, none⟩, alt⟩ ⟨ln, col⟩ =
      some (line_start buf ln + col) := by
    rw [rope_idx0, line_to_char?, if_pos (by simp only [len_lines]; omega)]
    rfl
  have hinsert : insertAt? buf (line_start buf ln + col) s =
      some (buf.take (line_start buf ln + col) ++ s ++
        buf.drop (line_start buf ln + col)) := by
    rw [insertAt?, if_pos hbound]
  rw [insert_str, hclamp]
  simp only [bindSome]
  show (Bind.bind (rope_idx0 ⟨buf, ⟨⟨ln, col⟩, none⟩, alt⟩ ⟨ln, col⟩) fun z =>
    Bind.bind (insertAt? buf z s) fun b =>
      (pure ⟨b, ⟨⟨ln + ((rustLines s).length.max 1 - 1),
        col + ((rustLines s).getLastD []).length⟩, none⟩, alt⟩ :
        Option Editor)) = _
  rw [hz]
  simp only [bindSome]
  rw [hinsert]
  simp only [bindSome]
  rw [rustLines_count s hs, rustLines_getLastD s hs]
  rfl

/-- Witness for `insert_str_advance`: inserting `"c\nd"` into `"ab"` at
`(0, 2)`. -/
theorem insert_str_advance_witness :
    insert_str ⟨"ab".toList, ⟨⟨0, 2⟩, none⟩, false⟩ "c\nd".toList = some
      ⟨"ab".toList.take (line_start "ab".toList 0 + 2) ++ "c\nd".toList ++
          "ab".toList.drop (line_start "ab".toList 0 + 2),
        ⟨⟨0 + countNl "c\nd".toList,
          2 + (afterLastNl "c\nd".toList).length⟩, none⟩, false⟩ :=
  insert_str_advance ⟨"ab".toList, ⟨⟨0, 2⟩, none⟩, false⟩ "c\nd".toList 2
    rfl (by decide) (by decide) (by decide) (by decide)

/-! ### Selection collapse (C8) -/

theorem set_anchor_eta (σ : Selection) (b : Bool) :
    σ.set_anchor b = ⟨σ.focus, (σ.set_anchor b).anchor⟩ := by
  unfold Selection.set_anchor
  split_ifs <;> rfl

theorem set_anchor_false_anchor (σ : Selection) :
    (σ.set_anchor false).anchor = none := by
  simp [Selection.set_anchor]

theorem set_anchor_some_anchor (σ : Selection) (b : Bool) (a : Cursor)
    (h : σ.anchor = some a) :
    (σ.set_anchor b).anchor = none ∨ (σ.set_anchor b).anchor = some a := by
  cases b
  · exact Or.inl (set_anchor_false_anchor σ)
  · right
    simp [Selection.set_anchor, h]

theorem fix_anchor_focus (t : Selection) : (t.fix_anchor).focus = t.focus := by
  unfold Selection.fix_anchor
  split_ifs <;> rfl

theorem fix_anchor_none (t : Selection) (h : t.anchor = none) :
    (t.fix_anchor).anchor = none := by
  unfold Selection.fix_anchor
  split_ifs <;> simpa

theorem collapse_of_shape (t : Selection) (a : Cursor)
    (ht : t.anchor = none ∨ t.anchor = some a)
    (hf : (t.fix_anchor).focus = a) :
    (t.fix_anchor).anchor = none := by
  rw [fix_anchor_focus] at hf
  unfold Selection.fix_anchor
  split_ifs with h
  · rfl
  · rcases ht with h1 | h1
    · exact h1
    · exact absurd (by rw [h1, hf]) h

theorem move_left_shape (e : Editor) (b : Bool)
    (hlt : e.selection.focus.ln < len_lines e.buf) :
    ∃ t : Selection,
      move_left e b = some ⟨e.buf, t.fix_anchor, e.altscreen⟩ ∧
      (b = false → t.anchor = none) ∧
      (∀ a, e.selection.anchor = some a →
        t.anchor = none ∨ t.anchor = some a) := by
  obtain ⟨buf, ⟨⟨ln, col⟩, anch⟩, alt⟩ := e
  dsimp only at hlt ⊢
  have hL : curr_ln_len? ⟨buf, ⟨⟨ln, col⟩, anch⟩, alt⟩ =
      some (trimmed (takeLine (buf.drop (line_start buf ln)))).length := by
    rw [curr_ln_len?, line?, if_pos hlt]
    rfl
  have hclamp : clamp ⟨buf, ⟨⟨ln, col⟩, anch⟩, alt⟩ =
      some ⟨buf, ⟨⟨ln, min col
        (trimmed (takeLine (buf.drop (line_start buf ln)))).length⟩,
        anch⟩, alt⟩ := by
    rw [clamp, hL]
    rfl
  set c' := min col (trimmed (takeLine (buf.drop (line_start buf ln)))).length
    with hc'
  set A := (Selection.set_anchor ⟨⟨ln, c'⟩, anch⟩ b).anchor with hA
  have hA1 : b = false → A = none := by
    intro hb
    rw [hA, hb, set_anchor_false_anchor]
  have hA2 : ∀ a, anch = some a → A = none ∨ A = some a := by
    intro a ha
    rw [hA]
    exact set_anchor_some_anchor _ b a ha
  simp only [move_left, hclamp, bindSome]
  rw [set_anchor_eta, ← hA]
  by_cases h1 : c' > 0
  · refine ⟨⟨⟨ln, c' - 1⟩, A⟩, ?_, hA1, hA2⟩
    rw [if_pos h1]
    rfl
  · by_cases h2 : ln > 0
    · have hL2 : curr_ln_len? ⟨buf, ⟨⟨ln - 1, c'⟩, A⟩, alt⟩ =
          some (trimmed (takeLine (buf.drop (line_start buf (ln - 1))))).length := by
        rw [curr_ln_len?, line?, if_pos (by simp only [len_lines] at hlt ⊢; omega)]
        rfl
      refine ⟨⟨⟨ln - 1,
        (trimmed (takeLine (buf.drop (line_start buf (ln - 1))))).length⟩, A⟩,
        ?_, hA1, hA2⟩
      rw [if_neg h1, if_pos h2]
      simp only [hL2, bindSome]
      rfl
    · refine ⟨⟨⟨ln, c'⟩, A⟩, ?_, hA1, hA2⟩
      rw [if_neg h1, if_neg h2]
      rfl

theorem move_right_shape (e : Editor) (b : Bool)
    (hlt : e.selection.focus.ln < len_lines e.buf) :
    ∃ t : Selection,
      move_right e b = some ⟨e.buf, t.fix_anchor, e.altscreen⟩ ∧
      (b = false → t.anchor = none) ∧
      (∀ a, e.selection.anchor = some a →
        t.anchor = none ∨ t.anchor = some a) := by
  obtain ⟨buf, ⟨⟨ln, col⟩, anch⟩, alt⟩ := e
  dsimp only at hlt ⊢
  have hL : curr_ln_len? ⟨buf, ⟨⟨ln, col⟩, anch⟩, alt⟩ =
      some (trimmed (takeLine (buf.drop (line_start buf ln)))).length := by
    rw [curr_ln_len?, line?, if_pos hlt]
    rfl
  have hclamp : clamp ⟨buf, ⟨⟨ln, col⟩, anch⟩, alt⟩ =
      some ⟨buf, ⟨⟨ln, min col
        (trimmed (takeLine (buf.drop (line_start buf ln)))).length⟩,
        anch⟩, alt⟩ := by
    rw [clamp, hL]
    rfl
  set Lv := (trimmed (takeLine (buf.drop (line_start buf ln)))).length with hLv
  set c' := min col Lv with hc'
  set A := (Selection.set_anchor ⟨⟨ln, c'⟩, anch⟩ b).anchor with hA
  have hA1 : b = false → A = none := by
    intro hb
    rw [hA, hb, set_anchor_false_anchor]
  have hA2 : ∀ a, anch = some a → A = none ∨ A = some a := by
    intro a ha
    rw [hA]
    exact set_anchor_some_anchor _ b a ha
  have hL2 : curr_ln_len? ⟨buf, ⟨⟨ln, c'⟩, A⟩, alt⟩ = some Lv := by
    rw [curr_ln_len?, line?, if_pos hlt]
    rfl
  simp only [move_right, hclamp, bindSome]
  rw [set_anchor_eta, ← hA]
  simp only [hL2, bindSome]
  by_cases h1 : c' < Lv
  · refine ⟨⟨⟨ln, c' + 1⟩, A⟩, ?_, hA1, hA2⟩
    rw [if_pos h1]
    rfl
  · by_cases h2 : ln + 1 < len_lines buf
    · refine ⟨⟨⟨ln + 1, 0⟩, A⟩, ?_, hA1, hA2⟩
      rw [if_neg h1, if_pos h2]
      rfl
    · refine ⟨⟨⟨ln, c'⟩, A⟩, ?_, hA1, hA2⟩
      rw [if_neg h1, if_neg h2]
      rfl

theorem move_up_shape (e : Editor) (b : Bool) :
    ∃ t : Selection,
      move_up e b = some ⟨e.buf, t.fix_anchor, e.altscreen⟩ ∧
      (b = false → t.anchor = none) ∧
      (∀ a, e.selection.anchor = some a →
        t.anchor = none ∨ t.anchor = some a) := by
  obtain ⟨buf, ⟨⟨ln, col⟩, anch⟩, alt⟩ := e
  dsimp only
  set A := (Selection.set_anchor ⟨⟨ln, col⟩, anch⟩ b).anchor with hA
  have hA1 : b = false → A = none := by
    intro hb
    rw [hA, hb, set_anchor_false_anchor]
  have hA2 : ∀ a, anch = some a → A = none ∨ A = some a := by
    intro a ha
    rw [hA]
    exact set_anchor_some_anchor _ b a ha
  simp only [move_up]
  rw [set_anchor_eta, ← hA]
  by_cases h1 : ln = 0
  · refine ⟨⟨⟨ln, 0⟩, A⟩, ?_, hA1, hA2⟩
    rw [if_pos h1]
  · refine ⟨⟨⟨ln - 1, col⟩, A⟩, ?_, hA1, hA2⟩
    rw [if_neg h1]

theorem move_down_shape (e : Editor) (b : Bool)
    (hlt : e.selection.focus.ln < len_lines e.buf) :
    ∃ t : Selection,
      move_down e b = some ⟨e.buf, t.fix_anchor, e.altscreen⟩ ∧
      (b = false → t.anchor = none) ∧
      (∀ a, e.selection.anchor = some a →
        t.anchor = none ∨ t.anchor = some a) := by
  obtain ⟨buf, ⟨⟨ln, col⟩, anch⟩, alt⟩ := e
  dsimp only at hlt ⊢
  set A := (Selection.set_anchor ⟨⟨ln, col⟩, anch⟩ b).anchor with hA
  have hA1 : b = false → A = none := by
    intro hb
    rw [hA, hb, set_anchor_false_anchor]
  have hA2 : ∀ a, anch = some a → A = none ∨ A = some a := by
    intro a ha
    rw [hA]
    exact set_anchor_some_anchor _ b a ha
  have hL2 : curr_ln_len? ⟨buf, ⟨⟨ln, col⟩, A⟩, alt⟩ =
      some (trimmed (takeLine (buf.drop (line_start buf ln)))).length := by
    rw [curr_ln_len?, line?, if_pos hlt]
    rfl
  simp only [move_down]
  rw [set_anchor_eta, ← hA]
  by_cases h1 : ln + 1 = len_lines buf
  · refine ⟨⟨⟨ln,
      (trimmed (takeLine (buf.drop (line_start buf ln)))).length⟩, A⟩,
      ?_, hA1, hA2⟩
    rw [if_pos h1]
    simp only [hL2, Option.map_some]
    rfl
  · refine ⟨⟨⟨ln + 1, col⟩, A⟩, ?_, hA1, hA2⟩
    rw [if_neg h1]

theorem move_to_col_shape (e : Editor) (cpos : Nat) (b : Bool) :
    ∃ t : Selection,
      move_to_col e cpos b = some ⟨e.buf, t.fix_anchor, e.altscreen⟩ ∧
      (b = false → t.anchor = none) ∧
      (∀ a, e.selection.anchor = some a →
        t.anchor = none ∨ t.anchor = some a) := by
  obtain ⟨buf, ⟨⟨ln, col⟩, anch⟩, alt⟩ := e
  dsimp only
  set A := (Selection.set_anchor ⟨⟨ln, col⟩, anch⟩ b).anchor with hA
  have hA1 : b = false → A = none := by
    intro hb
    rw [hA, hb, set_anchor_false_anchor]
  have hA2 : ∀ a, anch = some a → A = none ∨ A = some a := by
    intro a ha
    rw [hA]
    exact set_anchor_some_anchor _ b a ha
  refine ⟨⟨⟨ln, cpos⟩, A⟩, ?_, hA1, hA2⟩
  simp only [move_to_col]
  rw [set_anchor_eta, ← hA]

theorem move_to_line_end_shape (e : Editor) (b : Bool)
    (hlt : e.selection.focus.ln < len_lines e.buf) :
    ∃ t : Selection,
      move_to_line_end e b = some ⟨e.buf, t.fix_anchor, e.altscreen⟩ ∧
      (b = false → t.anchor = none) ∧
      (∀ a, e.selection.anchor = some a →
        t.anchor = none ∨ t.anchor = some a) := by
  have hL : curr_ln_len? e =
      some (trimmed (takeLine (e.buf.drop
        (line_start e.buf e.selection.focus.ln)))).length := by
    rw [curr_ln_len?, line?, if_pos hlt]
    rfl
  simp only [move_to_line_end, hL, bindSome]
  exact move_to_col_shape e _ b

/-- Claim C8 counterexample: `move_to_top` takes no selection-extension
flag and does not touch the anchor.  From focus `(1, 0)` with anchor
`(0, 0)`, it moves the focus onto the anchor and the anchor stays `some`:
both halves of the claimed invariant fail for `move_to_top`. -/
theorem move_to_top_keeps_anchor :
    (move_to_top ⟨"a\nb".toList, ⟨⟨1, 0⟩, some ⟨0, 0⟩⟩, false⟩).map
        (fun x => (x.selection.focus, x.selection.anchor)) =
      some (⟨0, 0⟩, some ⟨0, 0⟩) ∧
      (some ⟨0, 0⟩ : Option Cursor) ≠ none := by decide

/-- Claim C8 (amended): the collapse invariant holds for the six
flag-taking moves (`move_left`, `move_right`, `move_up`, `move_down`,
`move_to_col`, `move_to_line_end`): with `extend_selection = false` the
anchor is `none` afterwards, and any such move that lands the focus on
the pre-existing anchor drops the anchor.  `move_to_top` and
`move_to_bottom`, however, take no flag and leave the anchor exactly as
it was. -/
theorem selection_collapse_invariant (e : Editor) (cpos : Nat)
    (hlt : e.selection.focus.ln < len_lines e.buf) :
    ((∃ x, move_left e false = some x ∧ x.selection.anchor = none) ∧
      (∃ x, move_right e false = some x ∧ x.selection.anchor = none) ∧
      (∃ x, move_up e false = some x ∧ x.selection.anchor = none) ∧
      (∃ x, move_down e false = some x ∧ x.selection.anchor = none) ∧
      (∃ x, move_to_col e cpos false = some x ∧ x.selection.anchor = none) ∧
      (∃ x, move_to_line_end e false = some x ∧ x.selection.anchor = none)) ∧
    (∀ a : Cursor, e.selection.anchor = some a → ∀ b : Bool, ∀ x : Editor,
      (move_left e b = some x ∨ move_right e b = some x ∨
        move_up e b = some x ∨ move_down e b = some x ∨
        move_to_col e cpos b = some x ∨ move_to_line_end e b = some x) →
      x.selection.focus = a → x.selection.anchor = none) ∧
    ((move_to_top e).map (fun x => x.selection.anchor) =
        some e.selection.anchor ∧
      (move_to_bottom e).map (fun x => x.selection.anchor) =
        some e.selection.anchor) := by
  have hgen : ∀ (t : Selection) (a : Cursor) (b : Bool) (x : Editor),
      e.selection.anchor = some a →
      x = ⟨e.buf, t.fix_anchor, e.altscreen⟩ →
      (b = false → t.anchor = none) →
      (∀ a', e.selection.anchor = some a' →
        t.anchor = none ∨ t.anchor = some a') →
      x.selection.focus = a → x.selection.anchor = none := by
    intro t a b x ha hx h1 h2 hf
    subst hx
    dsimp only at hf ⊢
    apply collapse_of_shape t a ?_ hf
    cases b
    · exact Or.inl (h1 rfl)
    · exact h2 a ha
  refine ⟨⟨?_, ?_, ?_, ?_, ?_, ?_⟩, ?_, ?_, ?_⟩
  · obtain ⟨t, heq, h1, _⟩ := move_left_shape e false hlt
    exact ⟨_, heq, fix_anchor_none t (h1 rfl)⟩
  · obtain ⟨t, heq, h1, _⟩ := move_right_shape e false hlt
    exact ⟨_, heq, fix_anchor_none t (h1 rfl)⟩
  · obtain ⟨t, heq, h1, _⟩ := move_up_shape e false
    exact ⟨_, heq, fix_anchor_none t (h1 rfl)⟩
  · obtain ⟨t, heq, h1, _⟩ := move_down_shape e false hlt
    exact ⟨_, heq, fix_anchor_none t (h1 rfl)⟩
  · obtain ⟨t, heq, h1, _⟩ := move_to_col_shape e cpos false
    exact ⟨_, heq, fix_anchor_none t (h1 rfl)⟩
  · obtain ⟨t, heq, h1, _⟩ := move_to_line_end_shape e false hlt
    exact ⟨_, heq, fix_anchor_none t (h1 rfl)⟩
  · intro a ha b x hop hf
    rcases hop with h | h | h | h | h | h
    · obtain ⟨t, heq, h1, h2⟩ := move_left_shape e b hlt
      refine hgen t a b x ha ?_ h1 h2 hf
      rw [heq] at h
      exact (Option.some.inj h).symm
    · obtain ⟨t, heq, h1, h2⟩ := move_right_shape e b hlt
      refine hgen t a b x ha ?_ h1 h2 hf
      rw [heq] at h
      exact (Option.some.inj h).symm
    · obtain ⟨t, heq, h1, h2⟩ := move_up_shape e b
      refine hgen t a b x ha ?_ h1 h2 hf
      rw [heq] at h
      exact (Option.some.inj h).symm
    · obtain ⟨t, heq, h1, h2⟩ := move_down_shape e b hlt
      refine hgen t a b x ha ?_ h1 h2 hf
      rw [heq] at h
      exact (Option.some.inj h).symm
    · obtain ⟨t, heq, h1, h2⟩ := move_to_col_shape e cpos b
      refine hgen t a b x ha ?_ h1 h2 hf
      rw [heq] at h
      exact (Option.some.inj h).symm
    · obtain ⟨t, heq, h1, h2⟩ := move_to_line_end_shape e b hlt
      refine hgen t a b x ha ?_ h1 h2 hf
      rw [heq] at h
      exact (Option.some.inj h).symm
  · simp [move_to_top]
  · simp [move_to_bottom]

/-- Witness for `selection_collapse_invariant`: a non-extending
`move_left` on a buffer `"ab"` with an active anchor collapses the
anchor. -/
theorem selection_collapse_invariant_witness :
    ∃ x, move_left ⟨"ab".toList, ⟨⟨0, 1⟩, some ⟨0, 0⟩⟩, false⟩ false =
        some x ∧ x.selection.anchor = none :=
  ((selection_collapse_invariant ⟨"ab".toList, ⟨⟨0, 1⟩, some ⟨0, 0⟩⟩, false⟩ 0
    (by decide)).1).1

end MiniMe
